import Mathlib

/-!
# Verification of the Span diagramming tool's canvas core

A shallow embedding, in Lean 4, of the core state and operations of the
Span diagramming application (graph store, history manager, camera,
geometry, and the canvas interaction handlers), together with proofs and
refutations of the behavioural properties stated in its design document.

Modelling conventions:
* JavaScript numbers are modelled exactly as rationals (`ℚ`); the source
  performs only field arithmetic (`+ - * /`, `Math.min`, `Math.max`) on
  them, except for `Math.hypot`, which is handled as described below.
* `Math.hypot(dx, dy)` appears in the source only on the left of
  comparisons (`dist < minDist`, `distance < SNAP_THRESHOLD`).  Since
  squaring is strictly monotone on nonnegative reals, every such
  comparison of distances is equivalent to the same comparison of
  squared distances, so the embedding tracks squared distances
  (`distSq`) and compares thresholds squared.  Argmin computations are
  unaffected.
* A JavaScript `Record<string, T>` keyed by the stored value's own `id`
  is modelled as a `List` of the values, in key-insertion order
  (`Object.values` order for non-numeric string keys); key insertion of
  a fresh key appends, keyed update replaces in place, key deletion
  filters.
* React `useState` state and `useRef` refs become explicit fields of
  state structures threaded through the handler functions; each handler
  is a pure function from the pre-event state (plus event data) to the
  post-event state.
-/

namespace Span

/-- A 2-D point, used for drag positions and start-position records. -/
structure Pt where
  x : ℚ
  y : ℚ
deriving DecidableEq, Repr

/-! ## Data model (src/types.ts) -/

/-- `Node` from `types.ts`: `{ id, x, y, width, height, title,
description, collapsed, titleColor? }`. -/
structure Node where
  id : String
  x : ℚ
  y : ℚ
  width : ℚ
  height : ℚ
  title : String
  description : String
  collapsed : Bool
  titleColor : Option String := none
deriving DecidableEq, Repr

/-- `Edge` from `types.ts`: `{ id, from, to, label? }`.  `from` is a Lean
keyword, hence the guillemets. -/
structure Edge where
  id : String
  «from» : String
  «to» : String
  label : Option String := none
deriving DecidableEq, Repr

/-- `NodeMap = Record<string, Node>` keyed by node id, modelled as a list
in key-insertion order. -/
abbrev NodeMap := List Node

/-- `EdgeMap = Record<string, Edge>` keyed by edge id, modelled as a list
in key-insertion order. -/
abbrev EdgeMap := List Edge

/-- JS `map[id]` on a `Record` keyed by the value's own `id` field. -/
def NodeMap.get? (m : NodeMap) (id : String) : Option Node :=
  m.find? (fun n => n.id == id)

/-- JS `map[id]` on an `EdgeMap`. -/
def EdgeMap.get? (m : EdgeMap) (id : String) : Option Edge :=
  m.find? (fun e => e.id == id)

/-! ## Theme constants (src/theme.ts) -/

/-- `theme.ts` spacing scale: `spacing[3] = 16`. -/
def spacing3 : ℚ := 16

/-- `theme.ts` `nodeDefaults` (the fields the core logic reads). -/
structure NodeDefaults where
  width : ℚ
  height : ℚ
  minWidth : ℚ
  minHeight : ℚ
  titleHeight : ℚ

/-- `nodeDefaults = { width: 220, height: 140, minWidth: 120, minHeight:
60, titleHeight: 32, ... }`. -/
def nodeDefaults : NodeDefaults :=
  { width := 220, height := 140, minWidth := 120, minHeight := 60, titleHeight := 32 }

/-! ## Graph store: nodes (src/hooks/useNodes.ts) -/

/-- `Partial<Omit<Node, 'id'>>`: the record of optional field updates
accepted by `updateNode`.  By construction it cannot name `id`. -/
structure NodeUpdates where
  x : Option ℚ := none
  y : Option ℚ := none
  width : Option ℚ := none
  height : Option ℚ := none
  title : Option String := none
  description : Option String := none
  collapsed : Option Bool := none
  titleColor : Option (Option String) := none
deriving DecidableEq, Repr

/-- JS object spread `{ ...node, ...updates }` for a `NodeUpdates`
record: each present field overrides, each absent field is kept. -/
def applyUpdates (n : Node) (u : NodeUpdates) : Node :=
  { id := n.id
    x := u.x.getD n.x
    y := u.y.getD n.y
    width := u.width.getD n.width
    height := u.height.getD n.height
    title := u.title.getD n.title
    description := u.description.getD n.description
    collapsed := u.collapsed.getD n.collapsed
    titleColor := u.titleColor.getD n.titleColor }

/-- `useNodes.createNode(x, y)`: allocates a node with a fresh id and
default size/title, inserts it (fresh key: appended), returns it.  The
fresh id (`generateId()` in the source, timestamp + randomness) is taken
as a parameter. -/
def createNode (m : NodeMap) (freshId : String) (x y : ℚ) : Node × NodeMap :=
  let newNode : Node :=
    { id := freshId, x := x, y := y
      width := nodeDefaults.width, height := nodeDefaults.height
      title := "New Node", description := "", collapsed := false }
  (newNode, m ++ [newNode])

/-- `useNodes.updateNode(id, updates)`: `if (!prev[id]) return prev;
return { ...prev, [id]: { ...prev[id], ...updates } }` — no-op when the
id is absent, otherwise an in-place keyed merge. -/
def updateNode (m : NodeMap) (id : String) (u : NodeUpdates) : NodeMap :=
  if (NodeMap.get? m id).isSome then
    m.map (fun n => if n.id == id then applyUpdates n u else n)
  else m

/-- `useNodes.moveNode(id, x, y) = updateNode(id, { x, y })`. -/
def moveNode (m : NodeMap) (id : String) (x y : ℚ) : NodeMap :=
  updateNode m id { x := some x, y := some y }

/-- `useNodes.resizeNode(id, w, h)`: clamps to `nodeDefaults.minWidth` /
`minHeight`, then updates. -/
def resizeNode (m : NodeMap) (id : String) (w h : ℚ) : NodeMap :=
  updateNode m id { width := some (max w nodeDefaults.minWidth)
                    height := some (max h nodeDefaults.minHeight) }

/-- `useNodes.deleteNode(id)`: removes the key (`const { [id]: _, ...rest }
= prev`). -/
def deleteNode (m : NodeMap) (id : String) : NodeMap :=
  m.filter (fun n => n.id != id)

/-! ## Graph store: edges (src/hooks/useEdges.ts) -/

/-- `useEdges.createEdge(fromNodeId, toNodeId)`: rejects (returns `null`,
no state change) a self-connection or a pair already connected in either
direction; otherwise allocates with a fresh id (parameter, standing for
`generateId()`), inserts, and returns the new edge.  Result: the
`Edge | null` return value paired with the resulting edge map. -/
def createEdge (m : EdgeMap) (freshId : String) (fromNodeId toNodeId : String) :
    Option Edge × EdgeMap :=
  if fromNodeId == toNodeId then (none, m)
  else if m.any (fun e =>
      (e.«from» == fromNodeId && e.«to» == toNodeId) ||
      (e.«from» == toNodeId && e.«to» == fromNodeId)) then (none, m)
  else
    let newEdge : Edge := { id := freshId, «from» := fromNodeId, «to» := toNodeId }
    (some newEdge, m ++ [newEdge])

/-- `useEdges.deleteEdge(id)`. -/
def deleteEdge (m : EdgeMap) (id : String) : EdgeMap :=
  m.filter (fun e => e.id != id)

/-- `useEdges.deleteEdgesForNode(nodeId)`: keeps exactly the edges with
`edge.from !== nodeId && edge.«to» !== nodeId`.  (Defined in the source
but never called by any component.) -/
def deleteEdgesForNode (m : EdgeMap) (nodeId : String) : EdgeMap :=
  m.filter (fun e => e.«from» != nodeId && e.«to» != nodeId)

/-- Two edges connect the same unordered pair of node ids. -/
def samePair (e₁ e₂ : Edge) : Prop :=
  (e₁.«from» = e₂.«from» ∧ e₁.«to» = e₂.«to») ∨ (e₁.«from» = e₂.«to» ∧ e₁.«to» = e₂.«from»)

instance : DecidablePred fun p : Edge × Edge => samePair p.1 p.2 := by
  intro p; unfold samePair; infer_instance

instance (e₁ e₂ : Edge) : Decidable (samePair e₁ e₂) := by
  unfold samePair; infer_instance

/-- No two distinct entries of the edge map connect the same unordered
pair of node ids. -/
def NoDupPairs (m : EdgeMap) : Prop :=
  m.Pairwise (fun e₁ e₂ => ¬ samePair e₁ e₂)

/-! ## History manager (src/hooks/useHistory.ts) -/

/-- `HistoryState`: one snapshot of the graph (`{ nodes, edges }`). -/
structure HistoryState where
  nodes : NodeMap
  edges : EdgeMap
deriving DecidableEq, Repr

/-- The `useHistory` hook's state: the past and future stacks plus the
`isUndoingRef` flag that suppresses `pushState` while an undo/redo is
applying a snapshot. -/
structure History where
  past : List HistoryState
  future : List HistoryState
  isUndoing : Bool
deriving DecidableEq, Repr

/-- The initial history: both stacks empty, not undoing. -/
def History.empty : History := { past := [], future := [], isUndoing := false }

/-- `DEFAULT_MAX_SIZE = 50`. -/
def DEFAULT_MAX_SIZE : Nat := 50

/-- JS `arr.slice(-k)`: the last `k` elements — except that `slice(-0)`
is `slice(0)`, the whole array. -/
def jsSliceLast (l : List α) (k : Nat) : List α :=
  if k = 0 then l else l.drop (l.length - k)

/-- `useHistory.pushState(nodes, edges)`: no-op while `isUndoingRef` is
set; otherwise appends the snapshot to the past stack, trims the past
stack to the last `maxSize` entries when it exceeds `maxSize`
(`newPast.slice(-maxSize)`), and clears the future stack. -/
def pushState (maxSize : Nat) (h : History) (nodes : NodeMap) (edges : EdgeMap) : History :=
  if h.isUndoing then h
  else
    let newPast := h.past ++ [{ nodes := nodes, edges := edges }]
    { past := if newPast.length > maxSize then jsSliceLast newPast maxSize else newPast
      future := []
      isUndoing := h.isUndoing }

/-- `useHistory.undo(currentNodes, currentEdges, setNodes, setEdges)`:
returns `false` (changing nothing) when the past stack is empty;
otherwise pops the last past entry, pushes the current snapshot onto the
future stack, applies the popped snapshot through the setters (modelled
by returning it as the new current snapshot), and returns `true`.  The
source sets `isUndoingRef` to `true` on entry and back to `false` before
returning, so the returned history has `isUndoing = false`. -/
def undo (h : History) (current : HistoryState) : Bool × History × HistoryState :=
  match h.past.getLast? with
  | none => (false, h, current)
  | some previous =>
      (true,
       { past := h.past.dropLast
         future := h.future ++ [current]
         isUndoing := false },
       previous)

/-- `useHistory.redo(...)`: symmetric to `undo`, popping the future
stack and pushing the current snapshot onto the past stack. -/
def redo (h : History) (current : HistoryState) : Bool × History × HistoryState :=
  match h.future.getLast? with
  | none => (false, h, current)
  | some next =>
      (true,
       { past := h.past ++ [current]
         future := h.future.dropLast
         isUndoing := false },
       next)

/-- `useHistory.clearHistory()`. -/
def clearHistory (_h : History) : History := History.empty

/-! ## Camera (src/hooks/useCanvas.ts) -/

/-- `Camera`: pan offset `(x, y)` and zoom `scale`. -/
structure Camera where
  x : ℚ
  y : ℚ
  scale : ℚ
deriving DecidableEq, Repr

/-- `UseCanvasOptions` with `DEFAULT_OPTIONS = { minScale: 0.1,
maxScale: 3, scaleStep: 1.1 }`. -/
structure UseCanvasOptions where
  minScale : ℚ := 1/10
  maxScale : ℚ := 3
  scaleStep : ℚ := 11/10
deriving DecidableEq, Repr

/-- The default option record. -/
def DEFAULT_OPTIONS : UseCanvasOptions := {}

/-- `screenToCanvas(screenX, screenY) = ((screenX - camera.x) /
camera.scale, (screenY - camera.y) / camera.scale)`. -/
def screenToCanvas (c : Camera) (screenX screenY : ℚ) : Pt :=
  { x := (screenX - c.x) / c.scale, y := (screenY - c.y) / c.scale }

/-- `canvasToScreen(canvasX, canvasY) = (canvasX * scale + x, canvasY *
scale + y)`. -/
def canvasToScreen (c : Camera) (canvasX canvasY : ℚ) : Pt :=
  { x := canvasX * c.scale + c.x, y := canvasY * c.scale + c.y }

/-- `useCanvas.handleWheel`: one wheel step.  `direction = deltaY < 0 ?
1 : -1`; zooming in multiplies the scale by `scaleStep` clamped to
`maxScale` (`Math.min`), zooming out divides clamped to `minScale`
(`Math.max`); then the pan offset is re-solved so the canvas point under
the pointer stays under the pointer. -/
def handleWheel (opts : UseCanvasOptions) (c : Camera) (pointer : Pt) (deltaY : ℚ) : Camera :=
  let newScale :=
    if deltaY < 0 then min (c.scale * opts.scaleStep) opts.maxScale
    else max (c.scale / opts.scaleStep) opts.minScale
  let mousePointTo : Pt :=
    { x := (pointer.x - c.x) / c.scale, y := (pointer.y - c.y) / c.scale }
  { x := pointer.x - mousePointTo.x * newScale
    y := pointer.y - mousePointTo.y * newScale
    scale := newScale }

/-! ## Geometry (src/utils/geometry.ts) -/

/-- `SNAP_THRESHOLD = 30` (canvas units). -/
def SNAP_THRESHOLD : ℚ := 30

/-- `HandlePosition = 'top' | 'right' | 'bottom' | 'left'`. -/
inductive HandlePosition
  | top
  | right
  | bottom
  | left
deriving DecidableEq, Repr

/-- `HandlePoint`: a handle's canvas position, which side it sits on,
and (optionally) its node's id. -/
structure HandlePoint where
  x : ℚ
  y : ℚ
  position : HandlePosition
  nodeId : Option String := none
deriving DecidableEq, Repr

/-- `getNodeDisplayHeight(node)`: collapsed nodes render at
`nodeDefaults.titleHeight + spacing[3]`, others at their height. -/
def getNodeDisplayHeight (n : Node) : ℚ :=
  if n.collapsed then nodeDefaults.titleHeight + spacing3 else n.height

/-- The record returned by `getHandlePoints` (fields in `Object.values`
order: top, right, bottom, left). -/
structure HandlePoints where
  top : HandlePoint
  right : HandlePoint
  bottom : HandlePoint
  left : HandlePoint
deriving DecidableEq, Repr

/-- `getHandlePoints(node)`: the four mid-side anchor points, computed
from the node's display height. -/
def getHandlePoints (n : Node) : HandlePoints :=
  let displayHeight := getNodeDisplayHeight n
  { top := { x := n.x + n.width / 2, y := n.y, position := .top, nodeId := some n.id }
    right := { x := n.x + n.width, y := n.y + displayHeight / 2, position := .right,
               nodeId := some n.id }
    bottom := { x := n.x + n.width / 2, y := n.y + displayHeight, position := .bottom,
                nodeId := some n.id }
    left := { x := n.x, y := n.y + displayHeight / 2, position := .left, nodeId := some n.id } }

/-- `Object.values(getHandlePoints(node))` in field order. -/
def HandlePoints.values (hp : HandlePoints) : List HandlePoint :=
  [hp.top, hp.right, hp.bottom, hp.left]

/-- Look a handle up by its position. -/
def HandlePoints.at (hp : HandlePoints) : HandlePosition → HandlePoint
  | .top => hp.top
  | .right => hp.right
  | .bottom => hp.bottom
  | .left => hp.left

/-- Squared Euclidean distance; per the module conventions this models
`Math.hypot(x₁ - x₂, y₁ - y₂)`, which the source only ever compares
(squaring both sides of each comparison preserves it). -/
def distSq (x₁ y₁ x₂ y₂ : ℚ) : ℚ :=
  (x₁ - x₂) ^ 2 + (y₁ - y₂) ^ 2

/-- The handles scanned by `findClosestHandleInNodes`, in iteration
order: for each node not excluded (`node.id === excludeNodeId` skips),
the four handles of `getHandlePoints` in `Object.values` order.  The
source's two nested loops visit exactly this flattened list. -/
def candidateHandles (nodes : List Node) (excludeNodeId : Option String) : List HandlePoint :=
  (nodes.filter (fun n => some n.id != excludeNodeId)).flatMap
    (fun n => (getHandlePoints n).values)

/-- One iteration of the running-minimum loop of
`findClosestHandleInNodes`: replaces the best candidate so far when the
new handle is strictly closer (`dist < minDist`; the initial `minTrack =
Infinity` state is `none`). -/
def minStep (target : Pt) (acc : Option (HandlePoint × ℚ)) (h : HandlePoint) :
    Option (HandlePoint × ℚ) :=
  let dSq := distSq h.x h.y target.x target.y
  match acc with
  | none => some (h, dSq)
  | some (c, minD) => if dSq < minD then some (h, dSq) else some (c, minD)

/-- `findClosestHandleInNodes(nodes, targetX, targetY, excludeNodeId)`:
the globally nearest handle among all nodes other than the excluded one,
with its (squared) distance; `null` when no handle qualifies. -/
def findClosestHandleInNodes (nodes : List Node) (targetX targetY : ℚ)
    (excludeNodeId : Option String) : Option (HandlePoint × ℚ) :=
  (candidateHandles nodes excludeNodeId).foldl (minStep { x := targetX, y := targetY }) none

/-! ## Canvas interaction controller (src/components/Canvas.tsx) -/

/-- A JS `Record<string, {x, y}>` (used for `draggingNodes` and
`dragStartPositions.current`), as a key-insertion-ordered list. -/
abbrev PtRecord := List (String × Pt)

/-- JS `record[id]`. -/
def PtRecord.get? (r : PtRecord) (id : String) : Option Pt :=
  (r.find? (fun p => p.1 == id)).map Prod.snd

/-- JS `{ ...record, [id]: v }` / `record[id] = v`. -/
def PtRecord.set (r : PtRecord) (id : String) (v : Pt) : PtRecord :=
  if (r.find? (fun p => p.1 == id)).isSome then
    r.map (fun p => if p.1 == id then (id, v) else p)
  else r ++ [(id, v)]

/-- JS `delete record[id]`. -/
def PtRecord.delete (r : PtRecord) (id : String) : PtRecord :=
  r.filter (fun p => p.1 != id)

/-- `ConnectionDragState` from `Canvas.tsx`. -/
structure ConnectionDragState where
  fromNodeId : String
  fromPosition : HandlePosition
  startX : ℚ
  startY : ℚ
  currentX : ℚ
  currentY : ℚ
  snappedNodeId : Option String
  snappedPosition : Option HandlePosition
  snappedX : Option ℚ
  snappedY : Option ℚ
deriving DecidableEq, Repr

/-- The Canvas component's state relevant to the verified handlers: the
graph store, camera, selection, text-editing flag (`editing !== null`),
in-flight connection drag, the two per-node position records, and the
history stacks.  `selectedNodeIds` models the JS `Set<string>` as a
duplicate-free list in insertion order (`Set` iteration order). -/
structure CanvasState where
  camera : Camera
  nodes : NodeMap
  edges : EdgeMap
  selectedNodeIds : List String
  selectedEdgeId : Option String
  editing : Bool
  connectionDrag : Option ConnectionDragState
  draggingNodes : PtRecord
  dragStartPositions : PtRecord
  history : History
deriving DecidableEq, Repr

/-- `saveStateForUndo()`: `pushState(nodes, edges)` with the default
history size. -/
def saveStateForUndo (s : CanvasState) : History :=
  pushState DEFAULT_MAX_SIZE s.history s.nodes s.edges

/-- JS truthiness of a `string | null` value (both `null` and the empty
string are falsy). -/
def jsTruthy : Option String → Bool
  | some str => str != ""
  | none => false

/-- `closest.handle.nodeId || null`: JS `||` maps a falsy left operand
(here `undefined` or the empty string) to `null`. -/
def jsOrNull (o : Option String) : Option String :=
  if jsTruthy o then o else none

/-- `handleConnectionStart(nodeId, position, ...)`: begins a connection
drag at the pressed handle's canvas position, not yet snapped. -/
def handleConnectionStart (s : CanvasState) (nodeId : String) (position : HandlePosition) :
    CanvasState :=
  match NodeMap.get? s.nodes nodeId with
  | none => s
  | some node =>
      let handle := (getHandlePoints node).at position
      { s with connectionDrag := some {
          fromNodeId := nodeId, fromPosition := position
          startX := handle.x, startY := handle.y
          currentX := handle.x, currentY := handle.y
          snappedNodeId := none, snappedPosition := none
          snappedX := none, snappedY := none } }

/-- `handleConnectionMove(screenX, screenY)`: converts the pointer to
canvas space, finds the closest handle among all nodes but the source
(`findClosestHandleInNodes`), and records it as snapped iff its distance
is strictly below `SNAP_THRESHOLD` (here in squared form); otherwise
clears the snapped fields.  No-op without an in-flight drag. -/
def handleConnectionMove (s : CanvasState) (screenX screenY : ℚ) : CanvasState :=
  match s.connectionDrag with
  | none => s
  | some cd =>
      let canvasPos := screenToCanvas s.camera screenX screenY
      let closest := findClosestHandleInNodes s.nodes canvasPos.x canvasPos.y (some cd.fromNodeId)
      match closest with
      | some (handle, dSq) =>
          if dSq < SNAP_THRESHOLD ^ 2 then
            { s with connectionDrag := some { cd with
                currentX := canvasPos.x, currentY := canvasPos.y
                snappedNodeId := jsOrNull handle.nodeId
                snappedPosition := some handle.position
                snappedX := some handle.x, snappedY := some handle.y } }
          else
            { s with connectionDrag := some { cd with
                currentX := canvasPos.x, currentY := canvasPos.y
                snappedNodeId := none, snappedPosition := none
                snappedX := none, snappedY := none } }
      | none =>
          { s with connectionDrag := some { cd with
              currentX := canvasPos.x, currentY := canvasPos.y
              snappedNodeId := none, snappedPosition := none
              snappedX := none, snappedY := none } }

/-- `handleConnectionEnd()`: when the drag is snapped
(`if (connectionDrag.snappedNodeId)` — JS truthiness), pushes a history
snapshot (`saveStateForUndo`), calls `createEdge(fromNodeId,
snappedNodeId)` whatever it returns, and clears the drag; otherwise just
clears the drag.  The fresh edge id is a parameter, standing for
`generateId()`. -/
def handleConnectionEnd (s : CanvasState) (freshEdgeId : String) : CanvasState :=
  match s.connectionDrag with
  | none => s
  | some cd =>
      match cd.snappedNodeId with
      | some snappedId =>
          if snappedId == "" then { s with connectionDrag := none }
          else
            let history' := saveStateForUndo s
            let edges' := (createEdge s.edges freshEdgeId cd.fromNodeId snappedId).2
            { s with history := history', edges := edges', connectionDrag := none }
      | none => { s with connectionDrag := none }

/-- The `selectedNodeIds.size > 0` branch of the Delete/Backspace key
handler: one history snapshot, then `deleteNode` for each selected node,
then clear the node selection.  (No edge pruning happens here.) -/
def deleteSelectedNodesBranch (s : CanvasState) : CanvasState :=
  if s.selectedNodeIds.length > 0 then
    let history' := saveStateForUndo s
    let nodes' := s.selectedNodeIds.foldl (fun acc nodeId => deleteNode acc nodeId) s.nodes
    { s with history := history', nodes := nodes', selectedNodeIds := [] }
  else s

/-- The Delete/Backspace branch of `handleKeyDown`: suppressed while
text-editing; deletes the selected edge if one is selected
(`if (selectedEdgeId)` — JS truthiness), else deletes all selected
nodes. -/
def handleDeleteKey (s : CanvasState) : CanvasState :=
  if s.editing then s
  else
    match s.selectedEdgeId with
    | some edgeId =>
        if edgeId == "" then deleteSelectedNodesBranch s
        else
          let history' := saveStateForUndo s
          { s with history := history', edges := deleteEdge s.edges edgeId,
                   selectedEdgeId := none }
    | none => deleteSelectedNodesBranch s

/-- `handleNodeDragMove(nodeId, x, y)`: records the start position of
the dragged node (and, when it is part of a multi-selection, of every
selected node) on the first move, then writes the dragged node's visual
position and, for a multi-selection, moves every other selected node's
visual position by the same offset from its recorded start. -/
def handleNodeDragMove (s : CanvasState) (nodeId : String) (x y : ℚ) : CanvasState :=
  match NodeMap.get? s.nodes nodeId with
  | none => s
  | some node =>
      let dsp :=
        if (PtRecord.get? s.dragStartPositions nodeId).isNone then
          let dsp₁ := PtRecord.set s.dragStartPositions nodeId { x := node.x, y := node.y }
          if s.selectedNodeIds.contains nodeId && s.selectedNodeIds.length > 1 then
            s.selectedNodeIds.foldl (fun acc id =>
              match NodeMap.get? s.nodes id with
              | some n =>
                  if (PtRecord.get? acc id).isNone then
                    PtRecord.set acc id { x := n.x, y := n.y }
                  else acc
              | none => acc) dsp₁
          else dsp₁
        else s.dragStartPositions
      let dragging₁ := PtRecord.set s.draggingNodes nodeId { x := x, y := y }
      let dragging₂ :=
        if s.selectedNodeIds.contains nodeId && s.selectedNodeIds.length > 1 then
          match PtRecord.get? dsp nodeId with
          | some startPos =>
              let offsetX := x - startPos.x
              let offsetY := y - startPos.y
              s.selectedNodeIds.foldl (fun acc id =>
                if id != nodeId then
                  match PtRecord.get? dsp id with
                  | some otherStartPos =>
                      PtRecord.set acc id
                        { x := otherStartPos.x + offsetX, y := otherStartPos.y + offsetY }
                  | none => acc
                else acc) dragging₁
          | none => dragging₁
        else dragging₁
      { s with dragStartPositions := dsp, draggingNodes := dragging₂ }

/-- `handleNodeDragEnd(nodeId, x, y)`: computes the drag offset from the
recorded start position, clears the visual positions and the recorded
start positions of every selected node, pushes one history snapshot,
commits the dragged node's move, and then — for a multi-selection —
walks the selected nodes reading `dragStartPositions.current[id]` to
move the others (the source clears that record first, so those reads
happen on the already-cleared record). -/
def handleNodeDragEnd (s : CanvasState) (nodeId : String) (x y : ℚ) : CanvasState :=
  match NodeMap.get? s.nodes nodeId with
  | none => s
  | some _ =>
      match PtRecord.get? s.dragStartPositions nodeId with
      | none => s
      | some startPos =>
          let offsetX := x - startPos.x
          let offsetY := y - startPos.y
          let draggingNodes' :=
            s.selectedNodeIds.foldl (fun acc id => PtRecord.delete acc id) s.draggingNodes
          let dragStartPositions' :=
            s.selectedNodeIds.foldl (fun acc id => PtRecord.delete acc id) s.dragStartPositions
          let history' := saveStateForUndo s
          let nodes₁ := moveNode s.nodes nodeId x y
          let nodes₂ :=
            if s.selectedNodeIds.contains nodeId && s.selectedNodeIds.length > 1 then
              s.selectedNodeIds.foldl (fun acc id =>
                if id != nodeId then
                  match PtRecord.get? dragStartPositions' id with
                  | some otherStartPos =>
                      moveNode acc id (otherStartPos.x + offsetX) (otherStartPos.y + offsetY)
                  | none => acc
                else acc) nodes₁
            else nodes₁
          { s with nodes := nodes₂, draggingNodes := draggingNodes',
                   dragStartPositions := dragStartPositions', history := history' }

/-! ## Scenario states and derived operation folds

Concrete states and event-sequence folds used by the theorems below.
-/

/-- Fold a sequence of wheel events (pointer position, `deltaY`) through
`handleWheel`. -/
def applyWheelEvents (opts : UseCanvasOptions) (c : Camera) (events : List (Pt × ℚ)) : Camera :=
  events.foldl (fun cam ev => handleWheel opts cam ev.1 ev.2) c

/-- Fold a sequence of `pushState` calls through the history. -/
def pushMany (maxSize : Nat) (h : History) (pushes : List (NodeMap × EdgeMap)) : History :=
  pushes.foldl (fun acc p => pushState maxSize acc p.1 p.2) h

/-- A small concrete history (capacity 2, at capacity, nonempty future)
for the `history_bound` witness. -/
def c6Hist : History :=
  { past := [{ nodes := [], edges := [] }, { nodes := [], edges := [] }]
    future := [{ nodes := [], edges := [] }]
    isUndoing := false }

/-- Run a sequence of mutating actions against the store and the history
manager, the way `Canvas.tsx` wires every mutating gesture: each action
is preceded by exactly one `pushState` of the pre-action snapshot, and
then replaces the current graph by its post-action snapshot. -/
def runActions (maxSize : Nat) (h : History) (current : HistoryState)
    (actions : List HistoryState) : History × HistoryState :=
  actions.foldl (fun acc g => (pushState maxSize acc.1 acc.2.nodes acc.2.edges, g)) (h, current)

/-- Call `undo` `n` times, collecting the returned booleans. -/
def undoTimes : Nat → History → HistoryState → List Bool × History × HistoryState
  | 0, h, c => ([], h, c)
  | k + 1, h, c =>
      let r := undo h c
      let rest := undoTimes k r.2.1 r.2.2
      (r.1 :: rest.1, rest.2.1, rest.2.2)

/-- Call `redo` `n` times, collecting the returned booleans. -/
def redoTimes : Nat → History → HistoryState → List Bool × History × HistoryState
  | 0, h, c => ([], h, c)
  | k + 1, h, c =>
      let r := redo h c
      let rest := redoTimes k r.2.1 r.2.2
      (r.1 :: rest.1, rest.2.1, rest.2.2)

/-- Concrete initial snapshot for the `undo_redo_inverse` witness. -/
def c4wG0 : HistoryState := { nodes := [], edges := [] }

/-- Concrete two-action post-state sequence for the witness. -/
def c4wGs : List HistoryState :=
  [{ nodes := [], edges := [{ id := "e1", «from» := "a", «to» := "b" }] },
   { nodes := [], edges := [] }]

/-- The `i`-th distinct snapshot used to overflow the history bound. -/
def c4Snap (i : Nat) : HistoryState :=
  { nodes := [], edges := [{ id := Nat.repr i, «from» := "a", «to» := "b" }] }

/-- A 51-action run against the default 50-entry history. -/
def c4BigRun : History × HistoryState :=
  runActions DEFAULT_MAX_SIZE History.empty (c4Snap 0)
    ((List.range 51).map (fun i => c4Snap (i + 1)))

/-- A node literal with the default size, for concrete scenarios. -/
def mkNode (id : String) (x y : ℚ) : Node :=
  { id := id, x := x, y := y, width := 220, height := 140, title := id,
    description := "", collapsed := false }

/-- A connection drag from node `a` already snapped onto node `b`. -/
def c5Drag : ConnectionDragState :=
  { fromNodeId := "a", fromPosition := .right
    startX := 220, startY := 70, currentX := 400, currentY := 70
    snappedNodeId := some "b", snappedPosition := some .left
    snappedX := some 400, snappedY := some 70 }

/-- A canvas state in which releasing the snapped drag would re-create
the already-existing edge `a — b`, which `createEdge` rejects. -/
def c5State : CanvasState :=
  { camera := { x := 0, y := 0, scale := 1 }
    nodes := [mkNode "a" 0 0, mkNode "b" 400 0]
    edges := [{ id := "e1", «from» := "a", «to» := "b" }]
    selectedNodeIds := []
    selectedEdgeId := none
    editing := false
    connectionDrag := some c5Drag
    draggingNodes := []
    dragStartPositions := []
    history := History.empty }

/-- Nodes `a`, `b` joined by edge `e1`, with `a` selected. -/
def c2State : CanvasState :=
  { camera := { x := 0, y := 0, scale := 1 }
    nodes := [mkNode "a" 0 0, mkNode "b" 400 0]
    edges := [{ id := "e1", «from» := "a", «to» := "b" }]
    selectedNodeIds := ["a"]
    selectedEdgeId := none
    editing := false
    connectionDrag := none
    draggingNodes := []
    dragStartPositions := []
    history := History.empty }

/-- Nodes `a` (at `(0, 0)`) and `b` (at `(300, 200)`), both selected. -/
def c1State : CanvasState :=
  { camera := { x := 0, y := 0, scale := 1 }
    nodes := [mkNode "a" 0 0, mkNode "b" 300 200]
    edges := []
    selectedNodeIds := ["a", "b"]
    selectedEdgeId := none
    editing := false
    connectionDrag := none
    draggingNodes := []
    dragStartPositions := []
    history := History.empty }

/-- The state after dragging the selected node `a` by `(50, -20)`: one
drag move to `(50, -20)` followed by the drag end there. -/
def c1Dragged : CanvasState :=
  handleNodeDragEnd (handleNodeDragMove c1State "a" 50 (-20)) "a" 50 (-20)

/-- Two nodes `s` (source, at the origin) and `t` (at `(1000, 0)`), both
default-sized, with no connection drag yet. -/
def c7Base : CanvasState :=
  { camera := { x := 0, y := 0, scale := 1 }
    nodes := [mkNode "s" 0 0, mkNode "t" 1000 0]
    edges := []
    selectedNodeIds := []
    selectedEdgeId := none
    editing := false
    connectionDrag := none
    draggingNodes := []
    dragStartPositions := []
    history := History.empty }

/-- `c7Base` after pressing `s`'s right handle (at `(220, 70)`): node
`t`'s left handle sits at `(1000, 70)`, so a pointer at `(971, 70)` is
at Euclidean distance 29 from it and one at `(969, 70)` at distance
31. -/
def c7Start : CanvasState := handleConnectionStart c7Base "s" .right

/-- A literal in-flight drag from `s`, for the `snap_threshold_spec`
witness. -/
def c7wDrag : ConnectionDragState :=
  { fromNodeId := "s", fromPosition := .right
    startX := 220, startY := 70, currentX := 220, currentY := 70
    snappedNodeId := none, snappedPosition := none
    snappedX := none, snappedY := none }

/-- `c7Base` with the literal drag installed. -/
def c7wState : CanvasState :=
  { camera := { x := 0, y := 0, scale := 1 }
    nodes := [mkNode "s" 0 0, mkNode "t" 1000 0]
    edges := []
    selectedNodeIds := []
    selectedEdgeId := none
    editing := false
    connectionDrag := some c7wDrag
    draggingNodes := []
    dragStartPositions := []
    history := History.empty }

/-! ## Basic lemmas -/

theorem applyUpdates_id (n : Node) (u : NodeUpdates) : (applyUpdates n u).id = n.id := rfl

/-- If `createEdge` returns `null`, the edge map is unchanged. -/
theorem createEdge_none_eq (m : EdgeMap) (freshId a b : String)
    (h : (createEdge m freshId a b).1 = none) : (createEdge m freshId a b).2 = m := by
  unfold createEdge at *
  by_cases hab : (a == b) = true
  · simp [hab]
  · by_cases hany : (m.any (fun e =>
        (e.«from» == a && e.«to» == b) || (e.«from» == b && e.«to» == a))) = true
    · simp [hab, hany]
    · simp [hab, hany] at h

/-! ## C10: frame property of `updateNode` -/

/-- C10: for every node map, id and partial field record (which cannot
contain an `id` field), `updateNode` leaves every entry other than the
one named by `id` exactly unchanged (position by position), preserves
every entry's `id` (in particular the named node's), and — the id being
absent — returns the map unchanged (the function is total, so no
exception can occur). -/
theorem updateNode_frame (m : NodeMap) (id : String) (u : NodeUpdates) :
    (NodeMap.get? m id = none → updateNode m id u = m)
    ∧ (updateNode m id u).length = m.length
    ∧ (∀ i : Nat, ((updateNode m id u)[i]?).map Node.id = (m[i]?).map Node.id)
    ∧ (∀ (i : Nat) (n : Node), m[i]? = some n → n.id ≠ id →
        (updateNode m id u)[i]? = some n) := by
  unfold updateNode
  by_cases hmem : (NodeMap.get? m id).isSome
  · refine ⟨?_, ?_, ?_, ?_⟩
    · intro habs; rw [habs] at hmem; simp at hmem
    · simp [hmem]
    · intro i
      simp only [hmem, if_true, List.getElem?_map]
      cases hm : m[i]? with
      | none => rfl
      | some n =>
          by_cases hid : n.id = id <;> simp [hid, applyUpdates_id]
    · intro i n hi hne
      simp only [hmem, if_true, List.getElem?_map, hi, Option.map_some]
      simp [hne]
  · have hnone : NodeMap.get? m id = none := by
      cases h : NodeMap.get? m id with
      | none => rfl
      | some v => rw [h] at hmem; simp at hmem
    refine ⟨fun _ => by simp [hmem], by simp [hmem], fun i => by simp [hmem],
      fun i n hi _ => by simp [hmem, hi]⟩

/-- Witness for `updateNode_frame`: a concrete map with an absent id and
a concrete frame instance. -/
theorem updateNode_frame_witness :
    (NodeMap.get? [{ id := "a", x := 1, y := 2, width := 220, height := 140,
                     title := "A", description := "", collapsed := false : Node }] "z" = none)
    ∧ updateNode [{ id := "a", x := 1, y := 2, width := 220, height := 140,
                    title := "A", description := "", collapsed := false : Node }] "z"
        { x := some 9 } =
      [{ id := "a", x := 1, y := 2, width := 220, height := 140,
         title := "A", description := "", collapsed := false : Node }] :=
  ⟨by decide,
   (updateNode_frame [{ id := "a", x := 1, y := 2, width := 220, height := 140,
                        title := "A", description := "", collapsed := false : Node }] "z"
      { x := some 9 }).1 (by decide)⟩

/-! ## C3: `createEdge` validity -/

/-- C3: `createEdge(a, a)` returns `null` leaving the map unchanged; if
some edge already connects `a` and `b` in either direction, `createEdge
(a, b)` returns `null` leaving the map unchanged; the empty map has no
duplicate unordered pair, and `createEdge` preserves that invariant — so
a graph built through `createEdge` never contains two edges connecting
the same unordered pair of node ids. -/
theorem createEdge_validity :
    (∀ (m : EdgeMap) (freshId a : String), createEdge m freshId a a = (none, m))
    ∧ (∀ (m : EdgeMap) (freshId a b : String),
        (∃ e ∈ m, (e.«from» = a ∧ e.«to» = b) ∨ (e.«from» = b ∧ e.«to» = a)) →
        createEdge m freshId a b = (none, m))
    ∧ NoDupPairs ([] : EdgeMap)
    ∧ (∀ (m : EdgeMap) (freshId a b : String),
        NoDupPairs m → NoDupPairs (createEdge m freshId a b).2) := by
  refine ⟨?_, ?_, List.Pairwise.nil, ?_⟩
  · intro m freshId a
    simp [createEdge]
  · rintro m freshId a b ⟨e, hmem, hcase⟩
    unfold createEdge
    by_cases hab : (a == b) = true
    · simp [hab]
    · have hany : (m.any (fun e =>
          (e.«from» == a && e.«to» == b) || (e.«from» == b && e.«to» == a))) = true := by
        rw [List.any_eq_true]
        refine ⟨e, hmem, ?_⟩
        rcases hcase with ⟨h1, h2⟩ | ⟨h1, h2⟩ <;> simp [h1, h2]
      simp [hab, hany]
  · intro m freshId a b hnd
    unfold createEdge
    by_cases hab : (a == b) = true
    · simpa [hab] using hnd
    · by_cases hany : (m.any (fun e =>
          (e.«from» == a && e.«to» == b) || (e.«from» == b && e.«to» == a))) = true
      · simpa [hab, hany] using hnd
      · simp only [hab, hany, if_false, Bool.false_eq_true]
        unfold NoDupPairs
        rw [List.pairwise_append]
        refine ⟨hnd, List.pairwise_singleton _ _, ?_⟩
        intro e₁ he₁ e₂ he₂
        simp only [List.mem_singleton] at he₂
        subst he₂
        have hno := (List.any_eq_false ..).mp (Bool.eq_false_iff.mpr hany) e₁ he₁
        intro hsp
        rcases hsp with ⟨h1, h2⟩ | ⟨h1, h2⟩ <;> simp [h1, h2] at hno

/-- Witness for `createEdge_validity`: the concrete duplicate-pair
hypothesis discharged on a one-edge map. -/
theorem createEdge_validity_witness :
    (∃ e ∈ [{ id := "e1", «from» := "a", «to» := "b" : Edge }],
      (e.«from» = "b" ∧ e.«to» = "a") ∨ (e.«from» = "a" ∧ e.«to» = "b"))
    ∧ createEdge [{ id := "e1", «from» := "a", «to» := "b" : Edge }] "e2" "b" "a" =
        (none, [{ id := "e1", «from» := "a", «to» := "b" : Edge }]) :=
  ⟨by decide,
   createEdge_validity.2.1 [{ id := "e1", «from» := "a", «to» := "b" : Edge }] "e2" "b" "a"
     ⟨{ id := "e1", «from» := "a", «to» := "b" }, by decide, by decide⟩⟩

/-! ## C8: zoom clamp -/

/-- One wheel step keeps the scale inside `[minScale, maxScale]`. -/
theorem handleWheel_scale_mem (opts : UseCanvasOptions) (hmin : 0 < opts.minScale)
    (hmm : opts.minScale ≤ opts.maxScale) (hstep : 1 ≤ opts.scaleStep)
    (c : Camera) (hlo : opts.minScale ≤ c.scale) (hhi : c.scale ≤ opts.maxScale)
    (p : Pt) (d : ℚ) :
    opts.minScale ≤ (handleWheel opts c p d).scale ∧
      (handleWheel opts c p d).scale ≤ opts.maxScale := by
  have hsc : (handleWheel opts c p d).scale =
      if d < 0 then min (c.scale * opts.scaleStep) opts.maxScale
      else max (c.scale / opts.scaleStep) opts.minScale := rfl
  have hcpos : (0 : ℚ) < c.scale := lt_of_lt_of_le hmin hlo
  rw [hsc]
  by_cases hd : d < 0
  · rw [if_pos hd]
    refine ⟨le_min ?_ hmm, min_le_right _ _⟩
    exact le_trans hlo (le_mul_of_one_le_right (le_of_lt hcpos) hstep)
  · rw [if_neg hd]
    refine ⟨le_max_right _ _, max_le ?_ hmm⟩
    exact le_trans (div_le_self (le_of_lt hcpos) hstep) hhi

/-- C8: starting from any camera whose scale lies within `[minScale,
maxScale]` (with sane options: positive minimum, `minScale ≤ maxScale`,
step factor at least 1 — the defaults 0.1, 3.0, 1.1 qualify), folding
any sequence of wheel zoom steps keeps the scale within `[minScale,
maxScale]`.  Since this holds for an arbitrary event list, it holds for
every prefix of a longer interaction, i.e. the scale always remains in
range. -/
theorem zoom_clamp (opts : UseCanvasOptions) (hmin : 0 < opts.minScale)
    (hmm : opts.minScale ≤ opts.maxScale) (hstep : 1 ≤ opts.scaleStep)
    (c : Camera) (hlo : opts.minScale ≤ c.scale) (hhi : c.scale ≤ opts.maxScale)
    (events : List (Pt × ℚ)) :
    opts.minScale ≤ (applyWheelEvents opts c events).scale ∧
      (applyWheelEvents opts c events).scale ≤ opts.maxScale := by
  induction events generalizing c with
  | nil => exact ⟨hlo, hhi⟩
  | cons ev rest ih =>
      have h := handleWheel_scale_mem opts hmin hmm hstep c hlo hhi ev.1 ev.2
      simpa [applyWheelEvents, List.foldl_cons] using
        ih (handleWheel opts c ev.1 ev.2) h.1 h.2

/-- Witness for `zoom_clamp`: the default options, the initial camera
and a concrete in-out wheel sequence. -/
theorem zoom_clamp_witness :
    ((0 : ℚ) < DEFAULT_OPTIONS.minScale ∧ DEFAULT_OPTIONS.minScale ≤ DEFAULT_OPTIONS.maxScale ∧
      (1 : ℚ) ≤ DEFAULT_OPTIONS.scaleStep ∧
      DEFAULT_OPTIONS.minScale ≤ (1 : ℚ) ∧ (1 : ℚ) ≤ DEFAULT_OPTIONS.maxScale)
    ∧ (DEFAULT_OPTIONS.minScale ≤
        (applyWheelEvents DEFAULT_OPTIONS { x := 0, y := 0, scale := 1 }
          [({ x := 3, y := 4 }, -1), ({ x := 5, y := 6 }, 2)]).scale ∧
      (applyWheelEvents DEFAULT_OPTIONS { x := 0, y := 0, scale := 1 }
          [({ x := 3, y := 4 }, -1), ({ x := 5, y := 6 }, 2)]).scale ≤
        DEFAULT_OPTIONS.maxScale) :=
  ⟨⟨by norm_num [DEFAULT_OPTIONS], by norm_num [DEFAULT_OPTIONS],
    by norm_num [DEFAULT_OPTIONS], by norm_num [DEFAULT_OPTIONS],
    by norm_num [DEFAULT_OPTIONS]⟩,
   zoom_clamp DEFAULT_OPTIONS (by norm_num [DEFAULT_OPTIONS]) (by norm_num [DEFAULT_OPTIONS])
     (by norm_num [DEFAULT_OPTIONS]) { x := 0, y := 0, scale := 1 }
     (by norm_num [DEFAULT_OPTIONS]) (by norm_num [DEFAULT_OPTIONS])
     [({ x := 3, y := 4 }, -1), ({ x := 5, y := 6 }, 2)]⟩

/-! ## C9: pointer-anchored zoom -/

/-- The scale produced by one wheel step is positive, for any positive
starting scale and positive option constants. -/
theorem handleWheel_scale_pos (opts : UseCanvasOptions) (hmin : 0 < opts.minScale)
    (hmax : 0 < opts.maxScale) (hstep : 0 < opts.scaleStep)
    (c : Camera) (hs : 0 < c.scale) (p : Pt) (d : ℚ) :
    0 < (handleWheel opts c p d).scale := by
  have hsc : (handleWheel opts c p d).scale =
      if d < 0 then min (c.scale * opts.scaleStep) opts.maxScale
      else max (c.scale / opts.scaleStep) opts.minScale := rfl
  rw [hsc]
  by_cases hd : d < 0
  · rw [if_pos hd]; exact lt_min (mul_pos hs hstep) hmax
  · rw [if_neg hd]; exact lt_max_of_lt_right hmin

/-- C9: for every camera with positive scale (and positive option
constants — satisfied by the defaults), pointer position and wheel step,
the canvas point under the pointer before the step equals the canvas
point under the pointer after it (exactly, in rational arithmetic), and
the new offset satisfies `newOffset = pointer - (pointer - oldOffset) /
oldScale * newScale` componentwise. -/
theorem pointer_anchored_zoom (opts : UseCanvasOptions) (hmin : 0 < opts.minScale)
    (hmax : 0 < opts.maxScale) (hstep : 0 < opts.scaleStep)
    (c : Camera) (hs : 0 < c.scale) (p : Pt) (d : ℚ) :
    screenToCanvas (handleWheel opts c p d) p.x p.y = screenToCanvas c p.x p.y
    ∧ (handleWheel opts c p d).x
        = p.x - (p.x - c.x) / c.scale * (handleWheel opts c p d).scale
    ∧ (handleWheel opts c p d).y
        = p.y - (p.y - c.y) / c.scale * (handleWheel opts c p d).scale := by
  have hns : (handleWheel opts c p d).scale ≠ 0 :=
    ne_of_gt (handleWheel_scale_pos opts hmin hmax hstep c hs p d)
  have hcs : c.scale ≠ 0 := ne_of_gt hs
  refine ⟨?_, rfl, rfl⟩
  have hx : (handleWheel opts c p d).x
      = p.x - (p.x - c.x) / c.scale * (handleWheel opts c p d).scale := rfl
  have hy : (handleWheel opts c p d).y
      = p.y - (p.y - c.y) / c.scale * (handleWheel opts c p d).scale := rfl
  show Pt.mk _ _ = Pt.mk _ _
  rw [Pt.mk.injEq]
  constructor
  · show (p.x - (handleWheel opts c p d).x) / (handleWheel opts c p d).scale
        = (p.x - c.x) / c.scale
    rw [hx]
    field_simp
    ring
  · show (p.y - (handleWheel opts c p d).y) / (handleWheel opts c p d).scale
        = (p.y - c.y) / c.scale
    rw [hy]
    field_simp
    ring

/-- Witness for `pointer_anchored_zoom`: default options, a concrete
camera, pointer and zoom-in step. -/
theorem pointer_anchored_zoom_witness :
    ((0 : ℚ) < DEFAULT_OPTIONS.minScale ∧ (0 : ℚ) < DEFAULT_OPTIONS.maxScale ∧
      (0 : ℚ) < DEFAULT_OPTIONS.scaleStep ∧ (0 : ℚ) < (1 : ℚ))
    ∧ (screenToCanvas
          (handleWheel DEFAULT_OPTIONS { x := 7, y := -2, scale := 1 } { x := 40, y := 30 } (-1))
          40 30
        = screenToCanvas { x := 7, y := -2, scale := 1 } 40 30
      ∧ (handleWheel DEFAULT_OPTIONS { x := 7, y := -2, scale := 1 } { x := 40, y := 30 } (-1)).x
          = 40 - (40 - 7) / 1 *
            (handleWheel DEFAULT_OPTIONS { x := 7, y := -2, scale := 1 }
              { x := 40, y := 30 } (-1)).scale
      ∧ (handleWheel DEFAULT_OPTIONS { x := 7, y := -2, scale := 1 } { x := 40, y := 30 } (-1)).y
          = 30 - (30 - (-2)) / 1 *
            (handleWheel DEFAULT_OPTIONS { x := 7, y := -2, scale := 1 }
              { x := 40, y := 30 } (-1)).scale) :=
  ⟨⟨by norm_num [DEFAULT_OPTIONS], by norm_num [DEFAULT_OPTIONS],
    by norm_num [DEFAULT_OPTIONS], by norm_num⟩,
   pointer_anchored_zoom DEFAULT_OPTIONS (by norm_num [DEFAULT_OPTIONS])
     (by norm_num [DEFAULT_OPTIONS]) (by norm_num [DEFAULT_OPTIONS])
     { x := 7, y := -2, scale := 1 } (by norm_num) { x := 40, y := 30 } (-1)⟩

/-! ## History lemmas -/

/-- A suspended `pushState` (during undo/redo application) is a no-op. -/
theorem pushState_isUndoing (maxSize : Nat) (h : History) (n : NodeMap) (e : EdgeMap)
    (hu : h.isUndoing = true) : pushState maxSize h n e = h := by
  simp [pushState, hu]

/-- `pushState` without overflow: appends to the past stack and clears
the future stack. -/
theorem pushState_no_overflow (maxSize : Nat) (h : History) (n : NodeMap) (e : EdgeMap)
    (hu : h.isUndoing = false) (hlen : h.past.length < maxSize) :
    pushState maxSize h n e =
      { past := h.past ++ [{ nodes := n, edges := e }], future := [], isUndoing := false } := by
  have hc : ¬ (h.past ++ [{ nodes := n, edges := e : HistoryState }]).length > maxSize := by
    simp only [List.length_append, List.length_singleton, gt_iff_lt, not_lt]
    omega
  simp only [pushState, hu, Bool.false_eq_true, if_false]
  rw [if_neg hc]

/-- `undo` on a history whose past stack ends in `s`. -/
theorem undo_concat (p f : List HistoryState) (s : HistoryState) (b : Bool)
    (c : HistoryState) :
    undo { past := p ++ [s], future := f, isUndoing := b } c =
      (true, { past := p, future := f ++ [c], isUndoing := false }, s) := by
  unfold undo
  rw [List.getLast?_concat]
  simp [List.dropLast_concat]

/-- `redo` on a history whose future stack ends in `s`. -/
theorem redo_concat (p f : List HistoryState) (s : HistoryState) (b : Bool)
    (c : HistoryState) :
    redo { past := p, future := f ++ [s], isUndoing := b } c =
      (true, { past := p ++ [c], future := f, isUndoing := false }, s) := by
  unfold redo
  rw [List.getLast?_concat]
  simp [List.dropLast_concat]

/-! ## C6: history bound -/

/-- One `pushState` preserves the size bound on the past stack. -/
theorem pushState_length_le (maxSize : Nat) (hms : 1 ≤ maxSize) (h : History)
    (n : NodeMap) (e : EdgeMap) (hlen : h.past.length ≤ maxSize) :
    (pushState maxSize h n e).past.length ≤ maxSize := by
  unfold pushState
  by_cases hu : h.isUndoing
  · simp [hu, hlen]
  · simp only [hu, Bool.false_eq_true, if_false]
    by_cases hover : (h.past ++ [{ nodes := n, edges := e : HistoryState }]).length > maxSize
    · have hk : maxSize ≠ 0 := by omega
      simp only [hover, if_true, jsSliceLast, hk, if_false, List.length_drop]
      simp only [List.length_append, List.length_singleton] at hover ⊢
      omega
    · simp only [hover, if_false]
      simp only [List.length_append, List.length_singleton] at hover ⊢
      omega

/-- C6: (a) a `pushState` reachable outside undo/redo application
(`isUndoing = false`) empties the future stack, appends to the past
stack while it is below capacity, and at capacity drops the oldest
(first) entry while appending the new one; (b) consequently, starting
from the empty history, any sequence of `pushState` calls leaves at most
`maxSize` (default 50) entries on the past stack. -/
theorem history_bound (maxSize : Nat) (hms : 1 ≤ maxSize) :
    (∀ (h : History) (n : NodeMap) (e : EdgeMap), h.isUndoing = false →
        (pushState maxSize h n e).future = []
        ∧ (h.past.length < maxSize →
            (pushState maxSize h n e).past = h.past ++ [{ nodes := n, edges := e }])
        ∧ (h.past.length = maxSize →
            (pushState maxSize h n e).past = h.past.tail ++ [{ nodes := n, edges := e }]))
    ∧ (∀ pushes : List (NodeMap × EdgeMap),
        (pushMany maxSize History.empty pushes).past.length ≤ maxSize) := by
  constructor
  · intro h n e hu
    refine ⟨?_, ?_, ?_⟩
    · unfold pushState
      rw [hu]
      by_cases hover : (h.past ++ [{ nodes := n, edges := e : HistoryState }]).length > maxSize <;>
        simp [hover]
    · intro hlt
      rw [pushState_no_overflow maxSize h n e hu hlt]
    · intro heq
      unfold pushState
      rw [hu]
      have hover : (h.past ++ [{ nodes := n, edges := e : HistoryState }]).length > maxSize := by
        simp only [List.length_append, List.length_singleton]
        omega
      have hk : maxSize ≠ 0 := by omega
      simp only [Bool.false_eq_true, if_false, hover, if_true, jsSliceLast, hk]
      have hlen1 : (h.past ++ [{ nodes := n, edges := e : HistoryState }]).length - maxSize = 1 := by
        simp only [List.length_append, List.length_singleton]
        omega
      rw [hlen1, List.drop_append_of_le_length (by omega), List.drop_one]
  · intro pushes
    have key : ∀ (pushes : List (NodeMap × EdgeMap)) (h : History),
        h.past.length ≤ maxSize → (pushMany maxSize h pushes).past.length ≤ maxSize := by
      intro pushes
      induction pushes with
      | nil => intro h hh; exact hh
      | cons p rest ih =>
          intro h hh
          have := pushState_length_le maxSize hms h p.1 p.2 hh
          simpa [pushMany, List.foldl_cons] using ih _ this
    exact key pushes History.empty (by simp [History.empty])

/-- Witness for `history_bound`: a capacity-2 history at capacity, and a
concrete push sequence. -/
theorem history_bound_witness :
    (c6Hist.isUndoing = false ∧ (pushState 2 c6Hist [] []).future = [])
    ∧ (pushMany 2 History.empty [([], []), ([], []), ([], []), ([], [])]).past.length ≤ 2 :=
  ⟨⟨rfl, ((history_bound 2 (by decide)).1 c6Hist [] [] rfl).1⟩,
   (history_bound 2 (by decide)).2 [([], []), ([], []), ([], []), ([], [])]⟩

/-! ## C4: undo/redo inverse law -/

/-- `headD` after appending one element on the right. -/
theorem headD_concat {α : Type} (q : List α) (s d : α) : (q ++ [s]).headD d = q.headD s := by
  cases q <;> rfl

/-- Undoing as many times as the past stack is deep succeeds every time,
moves the current and past snapshots (in reverse) onto the future stack,
and ends at the oldest snapshot. -/
theorem undoTimes_spec (p : List HistoryState) :
    ∀ (f : List HistoryState) (c : HistoryState),
    undoTimes p.length { past := p, future := f, isUndoing := false } c =
      (List.replicate p.length true,
       { past := [], future := f ++ (c :: p.reverse).dropLast, isUndoing := false },
       p.headD c) := by
  induction p using List.reverseRecOn with
  | nil => intro f c; simp [undoTimes]
  | append_singleton q s ih =>
      intro f c
      have hlen : (q ++ [s]).length = q.length + 1 := by simp
      rw [hlen]
      show (let r := undo { past := q ++ [s], future := f, isUndoing := false } c
            let rest := undoTimes q.length r.2.1 r.2.2
            (r.1 :: rest.1, rest.2.1, rest.2.2)) = _
      rw [undo_concat]
      simp only []
      rw [ih (f ++ [c]) s]
      have hrev : (q ++ [s]).reverse = s :: q.reverse := by simp
      have hdrop : (c :: (q ++ [s]).reverse).dropLast
          = c :: (s :: q.reverse).dropLast := by
        rw [hrev]
        exact List.dropLast_cons₂
      rw [hdrop, headD_concat]
      simp [List.replicate_succ]

/-- Redoing as many times as the future stack is deep succeeds every
time, moves the current and future snapshots back onto the past stack,
and ends at the oldest future snapshot. -/
theorem redoTimes_spec (f : List HistoryState) :
    ∀ (p : List HistoryState) (c : HistoryState),
    redoTimes f.length { past := p, future := f, isUndoing := false } c =
      (List.replicate f.length true,
       { past := p ++ (c :: f.reverse).dropLast, future := [], isUndoing := false },
       f.headD c) := by
  induction f using List.reverseRecOn with
  | nil => intro p c; simp [redoTimes]
  | append_singleton q s ih =>
      intro p c
      have hlen : (q ++ [s]).length = q.length + 1 := by simp
      rw [hlen]
      show (let r := redo { past := p, future := q ++ [s], isUndoing := false } c
            let rest := redoTimes q.length r.2.1 r.2.2
            (r.1 :: rest.1, rest.2.1, rest.2.2)) = _
      rw [redo_concat]
      simp only []
      rw [ih (p ++ [c]) s]
      have hrev : (q ++ [s]).reverse = s :: q.reverse := by simp
      have hdrop : (c :: (q ++ [s]).reverse).dropLast
          = c :: (s :: q.reverse).dropLast := by
        rw [hrev]
        exact List.dropLast_cons₂
      rw [hdrop, headD_concat]
      simp [List.replicate_succ]

/-- Running actions that fit in the history capacity records exactly the
pre-action snapshots, oldest first, and clears the future stack. -/
theorem runActions_spec (maxSize : Nat) :
    ∀ (gs : List HistoryState) (h : History) (c : HistoryState),
    h.isUndoing = false → h.past.length + gs.length ≤ maxSize →
    runActions maxSize h c gs =
      ({ past := h.past ++ (c :: gs).dropLast
         future := if gs.isEmpty then h.future else []
         isUndoing := false }, gs.getLastD c) := by
  intro gs
  induction gs with
  | nil =>
      intro h c hu _
      simp only [runActions, List.foldl_nil, List.dropLast_single, List.append_nil,
        List.isEmpty_nil, if_true, List.getLastD_nil]
      cases h with
      | mk p f u => simp_all
  | cons g rest ih =>
      intro h c hu hlen
      have hstep : pushState maxSize h c.nodes c.edges =
          { past := h.past ++ [{ nodes := c.nodes, edges := c.edges }], future := [],
            isUndoing := false } := by
        apply pushState_no_overflow maxSize h c.nodes c.edges hu
        simp only [List.length_cons] at hlen
        omega
      have heta : ({ nodes := c.nodes, edges := c.edges } : HistoryState) = c := rfl
      rw [heta] at hstep
      have hlen2 : (h.past ++ [c]).length + rest.length ≤ maxSize := by
        simp only [List.length_append, List.length_singleton]
        simp only [List.length_cons] at hlen
        omega
      have hrec := ih { past := h.past ++ [c], future := [], isUndoing := false } g rfl hlen2
      show runActions maxSize (pushState maxSize h c.nodes c.edges) g rest = _
      rw [hstep, hrec]
      have hdrop : (c :: g :: rest).dropLast = c :: (g :: rest).dropLast :=
        List.dropLast_cons₂
      rw [List.getLastD_cons, hdrop]
      simp [List.append_assoc]

/-- C4 (amended): for any sequence of `N` mutating actions each preceded
by exactly one `pushState` of the pre-action snapshot, **provided `N`
does not exceed the history capacity `maxSize` (default 50)** and the
history starts empty, `N` calls to `undo` all return `true` and restore
the exact pre-action-1 graph, and `N` subsequent calls to `redo` all
return `true` and restore the exact post-action-`N` graph; moreover
`undo` returns `false` changing nothing whenever the past stack is
empty, and `redo` returns `false` changing nothing whenever the future
stack is empty. -/
theorem undo_redo_inverse (maxSize : Nat) (g0 : HistoryState) (gs : List HistoryState)
    (hlen : gs.length ≤ maxSize) :
    ((undoTimes gs.length (runActions maxSize History.empty g0 gs).1
        (runActions maxSize History.empty g0 gs).2).1 = List.replicate gs.length true
     ∧ (undoTimes gs.length (runActions maxSize History.empty g0 gs).1
          (runActions maxSize History.empty g0 gs).2).2.2 = g0
     ∧ (redoTimes gs.length
          (undoTimes gs.length (runActions maxSize History.empty g0 gs).1
            (runActions maxSize History.empty g0 gs).2).2.1
          (undoTimes gs.length (runActions maxSize History.empty g0 gs).1
            (runActions maxSize History.empty g0 gs).2).2.2).1
        = List.replicate gs.length true
     ∧ (redoTimes gs.length
          (undoTimes gs.length (runActions maxSize History.empty g0 gs).1
            (runActions maxSize History.empty g0 gs).2).2.1
          (undoTimes gs.length (runActions maxSize History.empty g0 gs).1
            (runActions maxSize History.empty g0 gs).2).2.2).2.2
        = gs.getLastD g0)
    ∧ (∀ (h : History) (c : HistoryState), h.past = [] → undo h c = (false, h, c))
    ∧ (∀ (h : History) (c : HistoryState), h.future = [] → redo h c = (false, h, c)) := by
  constructor
  · have hrun := runActions_spec maxSize gs History.empty g0 rfl
      (by simp [History.empty]; omega)
    have hfut : (if gs.isEmpty then History.empty.future else []) = [] := by
      cases gs <;> rfl
    rw [hfut] at hrun
    have hppast : (History.empty.past ++ (g0 :: gs).dropLast) = (g0 :: gs).dropLast := by
      simp [History.empty]
    rw [hppast] at hrun
    set p := (g0 :: gs).dropLast with hp
    have hplen : p.length = gs.length := by
      simp [hp, List.length_dropLast]
    set c := gs.getLastD g0 with hc
    rw [hrun]
    have hundo := undoTimes_spec p [] c
    rw [← hplen]
    rw [hundo]
    have hhead : p.headD c = g0 := by
      cases gs with
      | nil => simp [hp, hc]
      | cons a t =>
          have : (g0 :: a :: t).dropLast = g0 :: (a :: t).dropLast := List.dropLast_cons₂
          simp [hp, this]
    refine ⟨rfl, hhead, ?_, ?_⟩
    · have hredo := redoTimes_spec ((c :: p.reverse).dropLast) [] g0
      have hflen : ((c :: p.reverse).dropLast).length = p.length := by
        simp [List.length_dropLast]
      simp only [List.nil_append]
      rw [hhead, ← hflen, hredo]
    · have hredo := redoTimes_spec ((c :: p.reverse).dropLast) [] g0
      have hflen : ((c :: p.reverse).dropLast).length = p.length := by
        simp [List.length_dropLast]
      simp only [List.nil_append]
      rw [hhead, ← hflen, hredo]
      show ((c :: p.reverse).dropLast).headD g0 = c
      cases hrev : p.reverse with
      | nil =>
          have hpnil : p = [] := by simpa using congrArg List.reverse hrev
          have hgse : gs = [] := by
            have hpl := hplen
            rw [hpnil] at hpl
            exact List.length_eq_zero.mp hpl.symm
          show (([c] : List HistoryState).dropLast).headD g0 = c
          rw [hc, hgse]
          rfl
      | cons x xs =>
          show ((c :: x :: xs).dropLast).headD g0 = c
          rw [List.dropLast_cons₂]
          rfl
  · refine ⟨?_, ?_⟩
    · intro h c hpast
      unfold undo
      rw [hpast]
      rfl
    · intro h c hfut
      unfold redo
      rw [hfut]
      rfl

/-- Witness for `undo_redo_inverse`: a two-action run under the default
capacity. -/
theorem undo_redo_inverse_witness :
    c4wGs.length ≤ 50
    ∧ (((undoTimes c4wGs.length (runActions 50 History.empty c4wG0 c4wGs).1
           (runActions 50 History.empty c4wG0 c4wGs).2).1 = List.replicate c4wGs.length true
        ∧ (undoTimes c4wGs.length (runActions 50 History.empty c4wG0 c4wGs).1
             (runActions 50 History.empty c4wG0 c4wGs).2).2.2 = c4wG0
        ∧ (redoTimes c4wGs.length
             (undoTimes c4wGs.length (runActions 50 History.empty c4wG0 c4wGs).1
               (runActions 50 History.empty c4wG0 c4wGs).2).2.1
             (undoTimes c4wGs.length (runActions 50 History.empty c4wG0 c4wGs).1
               (runActions 50 History.empty c4wG0 c4wGs).2).2.2).1
            = List.replicate c4wGs.length true
        ∧ (redoTimes c4wGs.length
             (undoTimes c4wGs.length (runActions 50 History.empty c4wG0 c4wGs).1
               (runActions 50 History.empty c4wG0 c4wGs).2).2.1
             (undoTimes c4wGs.length (runActions 50 History.empty c4wG0 c4wGs).1
               (runActions 50 History.empty c4wG0 c4wGs).2).2.2).2.2
            = c4wGs.getLastD c4wG0)
       ∧ (∀ (h : History) (c : HistoryState), h.past = [] → undo h c = (false, h, c))
       ∧ (∀ (h : History) (c : HistoryState), h.future = [] → redo h c = (false, h, c))) :=
  ⟨by decide, undo_redo_inverse 50 c4wG0 c4wGs (by decide)⟩

set_option maxRecDepth 8000 in
/-- Counterexample to C4 as stated: with `N = 51 > 50` actions each
preceded by one `pushState`, the oldest history entry is evicted, so the
51st `undo` returns `false` (not every `undo` returns `true`) and the
final state is not the pre-action-1 snapshot. -/
theorem undo_redo_inverse_counterexample :
    ((List.range 51).map (fun i => c4Snap (i + 1))).length = 51
    ∧ (undoTimes 51 c4BigRun.1 c4BigRun.2).1 ≠ List.replicate 51 true
    ∧ (undoTimes 51 c4BigRun.1 c4BigRun.2).2.2 ≠ c4Snap 0 :=
  ⟨by decide, by decide, by decide⟩

/-! ## C5: history entries for rejected edge creations -/

/-- Counterexample to C5 as stated: releasing a snapped connection drag
whose edge `createEdge` rejects (duplicate pair) still grows the undo
(past) stack — it is not the same after the release as before it. -/
theorem connectionEnd_rejected_history_counterexample :
    (createEdge c5State.edges "e2" "a" "b").1 = none
    ∧ (handleConnectionEnd c5State "e2").edges = c5State.edges
    ∧ (handleConnectionEnd c5State "e2").history.past ≠ c5State.history.past :=
  ⟨by decide, by decide, by decide⟩

/-- C5 (amended): when a connection drag is released while snapped and
`createEdge` rejects the edge, the interaction controller still records
exactly one history entry: the graph is unchanged, and the past stack
after the release is the past stack before it with one snapshot of the
(unchanged) current graph appended (when below capacity and outside an
undo/redo application), with the future stack cleared. -/
theorem connectionEnd_rejected_pushes_history (s : CanvasState) (cd : ConnectionDragState)
    (fid nid : String)
    (hcd : s.connectionDrag = some cd)
    (hsnap : cd.snappedNodeId = some nid)
    (hne : nid ≠ "")
    (hrej : (createEdge s.edges fid cd.fromNodeId nid).1 = none)
    (hu : s.history.isUndoing = false)
    (hlt : s.history.past.length < DEFAULT_MAX_SIZE) :
    (handleConnectionEnd s fid).edges = s.edges
    ∧ (handleConnectionEnd s fid).history.past
        = s.history.past ++ [{ nodes := s.nodes, edges := s.edges }]
    ∧ (handleConnectionEnd s fid).history.future = [] := by
  have hedges := createEdge_none_eq s.edges fid cd.fromNodeId nid hrej
  have hpush := pushState_no_overflow DEFAULT_MAX_SIZE s.history s.nodes s.edges hu hlt
  have hbeq : (nid == "") = false := by simpa using hne
  unfold handleConnectionEnd
  simp only [hcd, hsnap, hbeq, Bool.false_eq_true, if_false]
  exact ⟨hedges, by simp [saveStateForUndo, hpush], by simp [saveStateForUndo, hpush]⟩

/-- Witness for `connectionEnd_rejected_pushes_history` at the concrete
rejected-release state. -/
theorem connectionEnd_rejected_witness :
    (c5State.connectionDrag = some c5Drag
      ∧ c5Drag.snappedNodeId = some "b"
      ∧ "b" ≠ ""
      ∧ (createEdge c5State.edges "e2" c5Drag.fromNodeId "b").1 = none
      ∧ c5State.history.isUndoing = false
      ∧ c5State.history.past.length < DEFAULT_MAX_SIZE)
    ∧ ((handleConnectionEnd c5State "e2").edges = c5State.edges
      ∧ (handleConnectionEnd c5State "e2").history.past
          = c5State.history.past ++ [{ nodes := c5State.nodes, edges := c5State.edges }]
      ∧ (handleConnectionEnd c5State "e2").history.future = []) :=
  ⟨⟨rfl, rfl, by decide, by decide, rfl, by decide⟩,
   connectionEnd_rejected_pushes_history c5State c5Drag "e2" "b" rfl rfl (by decide)
     (by decide) rfl (by decide)⟩

/-! ## C2: dangling edges after node deletion -/

/-- C2 fails on the code: pressing Delete with node `a` selected removes
the node but leaves edge `e1` (with `from = "a"`) in the edge map — the
Delete/Backspace branch never prunes incident edges (and the store's
`deleteEdgesForNode`, which would have, is never called).  The last
conjunct records what pruning would have produced. -/
theorem deleteKey_leaves_dangling_edge :
    NodeMap.get? (handleDeleteKey c2State).nodes "a" = none
    ∧ (handleDeleteKey c2State).edges = [{ id := "e1", «from» := "a", «to» := "b" }]
    ∧ (∃ e ∈ (handleDeleteKey c2State).edges, e.«from» = "a")
    ∧ deleteEdgesForNode (handleDeleteKey c2State).edges "a" = [] :=
  ⟨by decide, by decide, by decide, by decide⟩

/-! ## C1: multi-node drag commit -/

/-- C1 fails on the code: with two nodes selected and `a` dragged by
`(dx, dy) = (50, -20)`, on drag end only `a`'s stored position moves;
`b`'s stored position stays `(300, 200)` instead of `(350, 180)`,
because `handleNodeDragEnd` deletes every selected node's recorded start
position before the multi-node commit loop reads them. -/
theorem multiDragEnd_moves_only_dragged_node :
    (NodeMap.get? c1Dragged.nodes "a").map (fun n => (n.x, n.y)) = some (50, -20)
    ∧ (NodeMap.get? c1Dragged.nodes "b").map (fun n => (n.x, n.y)) = some (300, 200)
    ∧ ((300 : ℚ), (200 : ℚ)) ≠ ((350 : ℚ), (180 : ℚ)) :=
  ⟨by decide, by decide, by decide⟩

/-- `minStep` always produces a value. -/
theorem minStep_some (t : Pt) (acc : Option (HandlePoint × ℚ)) (h : HandlePoint) :
    ∃ q, minStep t acc h = some q := by
  unfold minStep
  cases acc with
  | none => exact ⟨_, rfl⟩
  | some p =>
      rcases p with ⟨c, m⟩
      by_cases hlt : distSq h.x h.y t.x t.y < m
      · exact ⟨(h, distSq h.x h.y t.x t.y), by simp [hlt]⟩
      · exact ⟨(c, m), by simp [hlt]⟩

/-- The value produced by one `minStep` is at most the new handle's
distance, and at most the accumulator's. -/
theorem minStep_le (t : Pt) (acc : Option (HandlePoint × ℚ)) (hd : HandlePoint)
    (r : HandlePoint × ℚ) (hr : minStep t acc hd = some r) :
    r.2 ≤ distSq hd.x hd.y t.x t.y ∧ ∀ p, acc = some p → r.2 ≤ p.2 := by
  unfold minStep at hr
  cases acc with
  | none =>
      simp only [Option.some.injEq] at hr
      subst hr
      exact ⟨le_refl _, fun p hp => by cases hp⟩
  | some p' =>
      rcases p' with ⟨c, m⟩
      by_cases hlt : distSq hd.x hd.y t.x t.y < m
      · simp only [hlt, if_true, Option.some.injEq] at hr
        subst hr
        exact ⟨le_refl _, fun p hp => by
          cases hp; exact le_of_lt hlt⟩
      · simp only [hlt, if_false, Option.some.injEq] at hr
        subst hr
        exact ⟨le_of_not_lt hlt, fun p hp => by cases hp; exact le_refl _⟩

/-- Folding `minStep` from a present accumulator stays present. -/
theorem foldl_minStep_some (t : Pt) (l : List HandlePoint) :
    ∀ p : HandlePoint × ℚ, ∃ q, l.foldl (minStep t) (some p) = some q := by
  induction l with
  | nil => exact fun p => ⟨p, rfl⟩
  | cons hd rest ih =>
      intro p
      obtain ⟨r, hr⟩ := minStep_some t (some p) hd
      rw [List.foldl_cons, hr]
      exact ih r

/-- Folding `minStep` over a nonempty list from the empty accumulator
produces a value. -/
theorem foldl_minStep_of_ne_nil (t : Pt) (l : List HandlePoint) (hl : l ≠ []) :
    ∃ q, l.foldl (minStep t) none = some q := by
  cases l with
  | nil => exact absurd rfl hl
  | cons hd rest =>
      rw [List.foldl_cons]
      exact foldl_minStep_some t rest (hd, distSq hd.x hd.y t.x t.y)

/-- Any value produced by the `minStep` fold is the accumulator or one
of the scanned handles with its distance. -/
theorem foldl_minStep_mem (t : Pt) (l : List HandlePoint) :
    ∀ (acc : Option (HandlePoint × ℚ)) (q : HandlePoint × ℚ),
    l.foldl (minStep t) acc = some q →
    acc = some q ∨ ∃ h ∈ l, q = (h, distSq h.x h.y t.x t.y) := by
  induction l with
  | nil => exact fun acc q h => Or.inl h
  | cons hd rest ih =>
      intro acc q hq
      rw [List.foldl_cons] at hq
      rcases ih (minStep t acc hd) q hq with hacc | ⟨h', hmem, hq'⟩
      · unfold minStep at hacc
        cases acc with
        | none =>
            simp only [Option.some.injEq] at hacc
            exact Or.inr ⟨hd, List.mem_cons_self hd rest, hacc.symm⟩
        | some p =>
            rcases p with ⟨c, m⟩
            by_cases hlt : distSq hd.x hd.y t.x t.y < m
            · simp only [hlt, if_true, Option.some.injEq] at hacc
              exact Or.inr ⟨hd, List.mem_cons_self hd rest, hacc.symm⟩
            · simp only [hlt, if_false, Option.some.injEq] at hacc
              exact Or.inl (by rw [hacc])
      · exact Or.inr ⟨h', List.mem_cons_of_mem hd hmem, hq'⟩

/-- Folding from a present accumulator can only shrink the distance. -/
theorem foldl_minStep_acc_le (t : Pt) (l : List HandlePoint) :
    ∀ (p q : HandlePoint × ℚ), l.foldl (minStep t) (some p) = some q → q.2 ≤ p.2 := by
  induction l with
  | nil =>
      intro p q h
      simp only [List.foldl_nil, Option.some.injEq] at h
      rw [← h]
  | cons hd rest ih =>
      intro p q hq
      rw [List.foldl_cons] at hq
      obtain ⟨r, hr⟩ := minStep_some t (some p) hd
      rw [hr] at hq
      have h1 := ih r q hq
      have h2 := (minStep_le t (some p) hd r hr).2 p rfl
      exact le_trans h1 h2

/-- The value produced by the `minStep` fold is a running minimum: it is
at most every scanned handle's distance. -/
theorem foldl_minStep_min (t : Pt) (l : List HandlePoint) :
    ∀ (acc : Option (HandlePoint × ℚ)) (q : HandlePoint × ℚ),
    l.foldl (minStep t) acc = some q →
    ∀ h ∈ l, q.2 ≤ distSq h.x h.y t.x t.y := by
  induction l with
  | nil => exact fun acc q _ h hmem => absurd hmem (List.not_mem_nil h)
  | cons hd rest ih =>
      intro acc q hq h hmem
      rw [List.foldl_cons] at hq
      obtain ⟨r, hr⟩ := minStep_some t acc hd
      rw [hr] at hq
      rcases List.mem_cons.mp hmem with rfl | hmem'
      · have h1 := foldl_minStep_acc_le t rest r q hq
        have h2 := (minStep_le t acc h r hr).1
        exact le_trans h1 h2
      · exact ih (some r) q hq h hmem'

/-- Membership in the candidate-handle list. -/
theorem mem_candidateHandles_iff (nodes : List Node) (ex : Option String) (hp : HandlePoint) :
    hp ∈ candidateHandles nodes ex ↔
      ∃ n ∈ nodes, some n.id ≠ ex ∧ hp ∈ (getHandlePoints n).values := by
  unfold candidateHandles
  rw [List.mem_flatMap]
  constructor
  · rintro ⟨n, hn, hmem⟩
    rw [List.mem_filter] at hn
    exact ⟨n, hn.1, by simpa using hn.2, hmem⟩
  · rintro ⟨n, hn, hne, hmem⟩
    exact ⟨n, List.mem_filter.mpr ⟨hn, by simpa using hne⟩, hmem⟩

/-- Every candidate handle carries the id of the node it belongs to. -/
theorem candidateHandles_nodeId (nodes : List Node) (ex : Option String) (hp : HandlePoint)
    (h : hp ∈ candidateHandles nodes ex) : ∃ n ∈ nodes, hp.nodeId = some n.id := by
  obtain ⟨n, hn, -, hmem⟩ := (mem_candidateHandles_iff nodes ex hp).mp h
  refine ⟨n, hn, ?_⟩
  simp only [HandlePoints.values, getHandlePoints, List.mem_cons, List.not_mem_nil,
    or_false] at hmem
  rcases hmem with rfl | rfl | rfl | rfl <;> rfl

/-! ## C7: snap threshold -/

/-- C7: (general part) during a connection drag, a pointer move leaves
the pending connection snapped (non-null `snappedNodeId`, assuming every
node id is nonempty — JS falsiness of `""`) iff some handle of a node
other than the source lies at Euclidean distance strictly less than
`SNAP_THRESHOLD = 30` from the pointer's canvas position — equivalently
iff the globally nearest such handle does; distances are compared in
squared form, which is equivalent since both sides are nonnegative.
(Scenario part) releasing the `c7Start` drag after moving to `(971,
70)` — distance 29 from `t`'s left handle — commits the edge `s — t`,
while releasing after moving to `(969, 70)` — distance 31 from every
candidate handle — creates no edge; the last two conjuncts record those
two squared distances. -/
theorem snap_threshold_spec :
    (∀ (s : CanvasState) (cd : ConnectionDragState) (sx sy : ℚ),
      s.connectionDrag = some cd →
      (∀ n ∈ s.nodes, n.id ≠ "") →
      ((((handleConnectionMove s sx sy).connectionDrag).bind
          ConnectionDragState.snappedNodeId).isSome
        ↔ ∃ n ∈ s.nodes, n.id ≠ cd.fromNodeId
            ∧ ∃ hp ∈ (getHandlePoints n).values,
                distSq hp.x hp.y (screenToCanvas s.camera sx sy).x
                  (screenToCanvas s.camera sx sy).y < SNAP_THRESHOLD ^ 2))
    ∧ (handleConnectionEnd (handleConnectionMove c7Start 971 70) "e1").edges
        = [{ id := "e1", «from» := "s", «to» := "t" }]
    ∧ (handleConnectionEnd (handleConnectionMove c7Start 969 70) "e1").edges = []
    ∧ distSq 1000 70 971 70 = 29 ^ 2
    ∧ distSq 1000 70 969 70 = 31 ^ 2 := by
  refine ⟨?_, ?_, ?_, by norm_num [distSq], by norm_num [distSq]⟩
  · intro s cd sx sy hcd hids
    unfold handleConnectionMove
    rw [hcd]
    simp only []
    cases hclosest : findClosestHandleInNodes s.nodes (screenToCanvas s.camera sx sy).x
        (screenToCanvas s.camera sx sy).y (some cd.fromNodeId) with
    | none =>
        simp only [hclosest, Option.some_bind, Option.isSome_none, Bool.false_eq_true,
          false_iff]
        rintro ⟨n, hn, hne, hp, hmem, hdist⟩
        have hmemc : hp ∈ candidateHandles s.nodes (some cd.fromNodeId) :=
          (mem_candidateHandles_iff s.nodes (some cd.fromNodeId) hp).mpr
            ⟨n, hn, by simpa using hne, hmem⟩
        obtain ⟨q, hq⟩ := foldl_minStep_of_ne_nil
          { x := (screenToCanvas s.camera sx sy).x, y := (screenToCanvas s.camera sx sy).y }
          (candidateHandles s.nodes (some cd.fromNodeId)) (List.ne_nil_of_mem hmemc)
        unfold findClosestHandleInNodes at hclosest
        rw [hclosest] at hq
        cases hq
    | some q =>
        obtain ⟨handle, d⟩ := q
        simp only [hclosest]
        by_cases hlt : d < SNAP_THRESHOLD ^ 2
        · simp only [hlt, if_true, Option.some_bind]
          have hmm := foldl_minStep_mem
            { x := (screenToCanvas s.camera sx sy).x, y := (screenToCanvas s.camera sx sy).y }
            (candidateHandles s.nodes (some cd.fromNodeId)) none (handle, d)
            (by unfold findClosestHandleInNodes at hclosest; exact hclosest)
          rcases hmm with habs | ⟨h', hmem', heq⟩
          · cases habs
          · have hh : handle = h' := congrArg Prod.fst heq
            have hd : d = distSq h'.x h'.y (screenToCanvas s.camera sx sy).x
                (screenToCanvas s.camera sx sy).y := congrArg Prod.snd heq
            obtain ⟨n0, hn0, hnid⟩ := candidateHandles_nodeId s.nodes (some cd.fromNodeId)
              h' hmem'
            obtain ⟨n1, hn1, hnex1, hmem1⟩ :=
              (mem_candidateHandles_iff s.nodes (some cd.fromNodeId) h').mp hmem'
            apply iff_of_true
            · rw [hh, hnid]
              have : jsTruthy (some n0.id) = true := by
                simp [jsTruthy, hids n0 hn0]
              simp [jsOrNull, this]
            · refine ⟨n1, hn1, by simpa using hnex1, h', hmem1, ?_⟩
              rw [← hd]
              exact hlt
        · simp only [hlt, if_false, Option.some_bind, Option.isSome_none,
            Bool.false_eq_true, false_iff]
          rintro ⟨n, hn, hne, hp, hmem, hdist⟩
          have hmemc : hp ∈ candidateHandles s.nodes (some cd.fromNodeId) :=
            (mem_candidateHandles_iff s.nodes (some cd.fromNodeId) hp).mpr
              ⟨n, hn, by simpa using hne, hmem⟩
          have hmin := foldl_minStep_min
            { x := (screenToCanvas s.camera sx sy).x, y := (screenToCanvas s.camera sx sy).y }
            (candidateHandles s.nodes (some cd.fromNodeId)) none (handle, d)
            (by unfold findClosestHandleInNodes at hclosest; exact hclosest) hp hmemc
          exact hlt (lt_of_le_of_lt hmin hdist)
  · norm_num [c7Start, c7Base, mkNode, handleConnectionStart, handleConnectionMove,
      handleConnectionEnd, NodeMap.get?, getHandlePoints, getNodeDisplayHeight, nodeDefaults,
      spacing3, HandlePoints.at, HandlePoints.values, screenToCanvas, findClosestHandleInNodes,
      candidateHandles, minStep, distSq, SNAP_THRESHOLD, jsOrNull, jsTruthy, saveStateForUndo,
      pushState, createEdge, History.empty, DEFAULT_MAX_SIZE, List.foldl, List.filter,
      List.flatMap]
    decide
  · norm_num [c7Start, c7Base, mkNode, handleConnectionStart, handleConnectionMove,
      handleConnectionEnd, NodeMap.get?, getHandlePoints, getNodeDisplayHeight, nodeDefaults,
      spacing3, HandlePoints.at, HandlePoints.values, screenToCanvas, findClosestHandleInNodes,
      candidateHandles, minStep, distSq, SNAP_THRESHOLD, jsOrNull, jsTruthy, saveStateForUndo,
      pushState, createEdge, History.empty, DEFAULT_MAX_SIZE, List.foldl, List.filter,
      List.flatMap]

/-- Witness for `snap_threshold_spec`: the general part applied at the
concrete drag state and the pointer position of the snap scenario. -/
theorem snap_threshold_spec_witness :
    (c7wState.connectionDrag = some c7wDrag ∧ ∀ n ∈ c7wState.nodes, n.id ≠ "")
    ∧ ((((handleConnectionMove c7wState 971 70).connectionDrag).bind
          ConnectionDragState.snappedNodeId).isSome
        ↔ ∃ n ∈ c7wState.nodes, n.id ≠ c7wDrag.fromNodeId
            ∧ ∃ hp ∈ (getHandlePoints n).values,
                distSq hp.x hp.y (screenToCanvas c7wState.camera 971 70).x
                  (screenToCanvas c7wState.camera 971 70).y < SNAP_THRESHOLD ^ 2) :=
  ⟨⟨rfl, by decide⟩, snap_threshold_spec.1 c7wState c7wDrag 971 70 rfl (by decide)⟩

end Span
